import Mathlib

/-!
Verification of the hardware register control layer of the t430-overclock
tool (`overclock.py`), as a shallow embedding in Lean 4.

Modelling conventions:
* Python arbitrary-precision nonnegative integers are `ℕ`; every MSR value
  handled by the program is a 64-bit register image read from hardware.
* Python floats are modelled as `ℚ`.  All float computations the claims
  exercise (RAPL power units `2^-e`, wattages times/divided by such units,
  quarter-step time-window fractions) are exact in IEEE-754 doubles, so the
  rational model agrees with the float semantics on these inputs.
* Python's builtin `round` (banker's rounding, half-to-even) is `pyRound`.
* `int(...)` applied to a rounded nonnegative wattage is `Int.toNat`; every
  call site in the program passes nonnegative wattages (GUI sliders 20..60 W).
* Effectful code is modelled by explicit state passing: the per-CPU MSR
  contents are a function `ℕ → ℕ`, the fan control file is a trace of the
  command strings written to it, and a write that may raise is driven by an
  oracle `dev : ℕ → Bool` telling whether the n-th write succeeds.
-/

namespace Overclock

/-- Source `bits(value, hi, lo)` from `overclock.py`:
`(value >> lo) & ((1 << (hi - lo + 1)) - 1)`. -/
def bits (value hi lo : ℕ) : ℕ :=
  (value >>> lo) &&& ((1 <<< (hi - lo + 1)) - 1)

/-- Source `set_bits(orig, hi, lo, field)` from `overclock.py`:
`mask = ((1 << (hi - lo + 1)) - 1) << lo; (orig & ~mask) | ((field << lo) & mask)`.
On nonnegative arbitrary-precision integers Python's `orig & ~mask` is exactly
bitwise and-not, i.e. `Nat.ldiff orig mask`. -/
def set_bits (orig hi lo field : ℕ) : ℕ :=
  let mask := ((1 <<< (hi - lo + 1)) - 1) <<< lo
  Nat.ldiff orig mask ||| ((field <<< lo) &&& mask)

/-- Python's builtin `round` on a float value, modelled over `ℚ`:
round half to even (banker's rounding). -/
def pyRound (q : ℚ) : ℤ :=
  let n : ℤ := ⌊q⌋
  if q - n < 1/2 then n
  else if 1/2 < q - n then n + 1
  else if 2 ∣ n then n else n + 1

/-- Source `read_rapl_units` decode step: from the raw `MSR_RAPL_POWER_UNIT` value,
`power_unit = 1.0 / (1 << bits(val, 3, 0))`, `time_unit = 1.0 / (1 << bits(val, 19, 16))`. -/
def read_rapl_units (raw : ℕ) : ℚ × ℚ :=
  (1 / ((1 <<< bits raw 3 0 : ℕ) : ℚ), 1 / ((1 <<< bits raw 19 16 : ℕ) : ℚ))

/-- Source `_decode_time_window(field, time_unit)` from `overclock.py`:
`y = field & 0x1F; z = (field >> 5) & 0x3; (2 ** y) * (1.0 + z / 4.0) * time_unit`. -/
def _decode_time_window (field : ℕ) (time_unit : ℚ) : ℚ :=
  let y := field &&& 0x1F
  let z := (field >>> 5) &&& 0x3
  (2 ^ y) * (1 + (z : ℚ) / 4) * time_unit

/-- Result record of `read_power_limits`. -/
structure PowerLimits where
  pl1_w : ℚ
  pl1_enabled : Bool
  pl1_time : ℚ
  pl2_w : ℚ
  pl2_enabled : Bool
  pl2_time : ℚ
  locked : Bool

/-- Source `read_power_limits(power_unit, time_unit)` decode step, as a pure function of
the raw `MSR_PKG_POWER_LIMIT` value it read. -/
def read_power_limits (raw : ℕ) (power_unit time_unit : ℚ) : PowerLimits where
  pl1_w := (bits raw 14 0 : ℚ) * power_unit
  pl1_enabled := bits raw 15 15 != 0
  pl1_time := _decode_time_window (bits raw 23 17) time_unit
  pl2_w := (bits raw 46 32 : ℚ) * power_unit
  pl2_enabled := bits raw 47 47 != 0
  pl2_time := _decode_time_window (bits raw 55 49) time_unit
  locked := bits raw 63 63 != 0

/-- The 64-bit value `write_pl_watts(pl1_w, pl2_w, power_unit)` computes and
broadcasts, as a pure function of the raw value it read from CPU 0:
for each present wattage, set the raw watts field to `int(round(w / power_unit))`
and force the enable bit on; finally force the lock bit (63) to 0. -/
def write_pl_value (raw : ℕ) (pl1_w pl2_w : Option ℚ) (power_unit : ℚ) : ℕ :=
  let raw1 := match pl1_w with
    | none => raw
    | some w => set_bits (set_bits raw 14 0 (pyRound (w / power_unit)).toNat) 15 15 1
  let raw2 := match pl2_w with
    | none => raw1
    | some w => set_bits (set_bits raw1 46 32 (pyRound (w / power_unit)).toNat) 47 47 1
  set_bits raw2 63 63 0

/-- One `write_msr(msr, value, cpu)` call on the per-CPU register state for a
fixed MSR address: CPU `cpu` now holds `value`, every other CPU is unchanged. -/
def write_msr_single (st : ℕ → ℕ) (cpu value : ℕ) : ℕ → ℕ :=
  fun c => if c = cpu then value else st c

/-- Source `write_msr_all_cpus(msr, value)`: sequentially write `value` to every CPU
in the list (the online CPUs, in ascending order in the program). -/
def write_msr_all_cpus (cpus : List ℕ) (value : ℕ) (st : ℕ → ℕ) : ℕ → ℕ :=
  match cpus with
  | [] => st
  | cpu :: rest => write_msr_all_cpus rest value (write_msr_single st cpu value)

/-- Whole-system effect of `write_pl_watts`: it reads `MSR_PKG_POWER_LIMIT`
from CPU 0 only (`read_msr` default `cpu=0`), computes `write_pl_value`, and
broadcasts that single value to all online CPUs. -/
def write_pl_watts (st : ℕ → ℕ) (cpus : List ℕ) (pl1_w pl2_w : Option ℚ)
    (power_unit : ℚ) : ℕ → ℕ :=
  write_msr_all_cpus cpus (write_pl_value (st 0) pl1_w pl2_w power_unit) st

/-- Source `read_turbo_ratios()` decode step: 8 consecutive one-byte fields of the
raw `MSR_TURBO_RATIO_LIMIT` value. -/
def read_turbo_ratios (raw : ℕ) : List ℕ :=
  (List.range 8).map (fun i => bits raw (i * 8 + 7) (i * 8))

/-- Source `write_turbo_ratios(ratios)` encode step: pack the entries back into one
64-bit value with `set_bits`. -/
def write_turbo_ratios_value (rs : List ℕ) : ℕ :=
  rs.enum.foldl (fun val p => set_bits val (p.1 * 8 + 7) (p.1 * 8) p.2) 0

/-- The per-entry collection loop of `OverclockWindow._apply_ratios`: an empty
text field rejects, a parsed entry outside 20..42 rejects, otherwise the
entries are collected in order. -/
def validate_ratios : List (Option ℕ) → Option (List ℕ)
  | [] => some []
  | none :: _ => none
  | some r :: rest => if r < 20 ∨ 42 < r then none else (validate_ratios rest).map (r :: ·)

/-- The ordering loop of `OverclockWindow._apply_ratios`: reject whenever some
adjacent pair has `new_ratios[i] < new_ratios[i + 1]`. -/
def order_ok : List ℕ → Bool
  | r1 :: r2 :: rest => if r1 < r2 then false else order_ok (r2 :: rest)
  | _ => true

/-- Source `OverclockWindow._apply_ratios`: validate the 4 user-entered ratios
(range check, then non-increasing order check) before any hardware access;
only when both checks pass, read the current 8-entry table, replace its first
4 entries and write the merged table back.  Returns `none` when the write is
rejected (no register read or written), `some table` with the table written
otherwise. -/
def apply_ratios (texts : List (Option ℕ)) (current : List ℕ) : Option (List ℕ) :=
  match validate_ratios texts with
  | none => none
  | some new_ratios =>
      if order_ok new_ratios then some (new_ratios ++ current.drop 4) else none

/-- Constant `FAN_WATCHDOG_SECONDS` from `overclock.py`. -/
def FAN_WATCHDOG_SECONDS : ℕ := 30

/-- The fan modes offered by the GUI combo box. -/
inductive FanMode where
  | auto
  | manual (level : ℕ)
  | fullSpeed
  | disengaged
deriving DecidableEq

/-- The `level_str` computed by `OverclockWindow._apply_fan_setting` for each
combo-box mode. -/
def fan_level_str : FanMode → String
  | .auto => "auto"
  | .manual n => toString n
  | .fullSpeed => "full-speed"
  | .disengaged => "disengaged"

/-- Source `write_fan_level(level)`: the string written to `/proc/acpi/ibm/fan`. -/
def write_fan_level_cmd (level : String) : String :=
  "level " ++ level ++ "\n"

/-- Source `write_fan_watchdog(timeout)`: the string written to `/proc/acpi/ibm/fan`. -/
def write_fan_watchdog_cmd (timeout : ℕ) : String :=
  "watchdog " ++ toString timeout ++ "\n"

/-- Validity of a fan mode at the GUI boundary: the manual-level slider is
clamped to 0..7. -/
def fan_mode_ok : FanMode → Bool
  | .manual n => decide (n ≤ 7)
  | _ => true

/-- The command sequence `OverclockWindow._apply_fan_setting` writes to the
fan control file: `level <level_str>`, then `watchdog FAN_WATCHDOG_SECONDS`
when `level_str != "auto"`, else `watchdog 0`. -/
def _apply_fan_setting (m : FanMode) : List String :=
  let level_str := fan_level_str m
  [write_fan_level_cmd level_str,
   if level_str ≠ "auto" then write_fan_watchdog_cmd FAN_WATCHDOG_SECONDS
   else write_fan_watchdog_cmd 0]

/-- Sequential execution of file writes that may raise: `dev n` tells whether
the n-th write succeeds.  Returns the commands actually issued to the device
(a failing write is issued, raises, and stops the sequence) and whether all
writes succeeded. -/
def runWrites (dev : ℕ → Bool) : List String → List String × Bool
  | [] => ([], true)
  | c :: rest =>
      if dev 0 then
        let r := runWrites (fun n => dev (n + 1)) rest
        (c :: r.1, r.2)
      else ([c], false)

/-- Source `OverclockWindow.closeEvent`: when the fan interface is available, try to
write `level auto` then `watchdog 0`, swallowing any exception; then accept
the close event.  The source never inspects the active fan mode here; the
`_mode` argument records the mode active at shutdown only to state that the
cleanup is identical for every mode.  Returns the trace of commands issued to
the fan file and whether the close event was accepted. -/
def closeEvent (fan_available : Bool) (_mode : FanMode) (dev : ℕ → Bool) :
    List String × Bool :=
  if fan_available then
    ((runWrites dev [write_fan_level_cmd ("auto"), write_fan_watchdog_cmd 0]).1, true)
  else ([], true)

/-- Python `str.isdigit` on the ASCII entry names of `/dev/cpu`: nonempty and
all characters are digits. -/
def isdigit (s : String) : Bool :=
  !s.isEmpty && s.all Char.isDigit

/-- Source `online_cpus()`: list `/dev/cpu`, keep the purely numeric entry names,
parse them and sort ascending.  The directory listing is modelled as
`Option (List String)`: `none` means the directory is absent, in which case
`os.listdir` raises `OSError` — the source has no handler, so the call fails
(`Except.error`). -/
def online_cpus (dir : Option (List String)) : Except Unit (List ℕ) :=
  match dir with
  | none => Except.error ()
  | some entries =>
      Except.ok ((entries.filterMap
        (fun e => if isdigit e then e.toNat? else none)).mergeSort (· ≤ ·))

/-! ### Bit-level toolkit -/

/-- Bitwise and-not agrees with xor-and, which the kernel can evaluate on
literals. -/
theorem ldiff_eq_xor_and (a b : ℕ) : Nat.ldiff a b = a ^^^ (a &&& b) := by
  apply Nat.eq_of_testBit_eq
  intro i
  simp only [Nat.testBit_ldiff, Nat.testBit_xor, Nat.testBit_and]
  cases ha : a.testBit i <;> cases hb : b.testBit i <;> rfl

/-- Bit `i` of `set_bits orig hi lo field`: inside the range it is the
corresponding bit of `field`, outside it is the original bit. -/
theorem testBit_set_bits (orig hi lo field i : ℕ) (h : lo ≤ hi) :
    (set_bits orig hi lo field).testBit i =
      if lo ≤ i ∧ i ≤ hi then field.testBit (i - lo) else orig.testBit i := by
  simp only [set_bits, Nat.testBit_or, Nat.testBit_ldiff, Nat.testBit_and,
    Nat.testBit_shiftLeft, Nat.one_shiftLeft, Nat.testBit_two_pow_sub_one]
  by_cases h1 : lo ≤ i
  · by_cases h2 : i ≤ hi
    · have h3 : i - lo < hi - lo + 1 := by omega
      simp [h1, h2, h3, ge_iff_le]
    · have h3 : ¬ (i - lo < hi - lo + 1) := by omega
      simp [h1, h2, h3, ge_iff_le]
  · have h3 : ¬ (lo ≤ i ∧ i ≤ hi) := fun hc => h1 hc.1
    simp [h1, h3, ge_iff_le]

/-- Bit `i` of `bits v hi lo`: bit `lo + i` of `v`, masked to the field
width. -/
theorem testBit_bits (v hi lo i : ℕ) :
    (bits v hi lo).testBit i = (decide (i ≤ hi - lo) && v.testBit (lo + i)) := by
  simp only [bits, Nat.testBit_and, Nat.testBit_shiftRight, Nat.one_shiftLeft,
    Nat.testBit_two_pow_sub_one]
  have h : (i < hi - lo + 1) ↔ (i ≤ hi - lo) := by omega
  simp [h, Bool.and_comm]

/-- Two values agreeing on all bits of a range have the same extracted
field. -/
theorem bits_congr (a b hi lo : ℕ) (hle : lo ≤ hi)
    (h : ∀ i, lo ≤ i → i ≤ hi → a.testBit i = b.testBit i) :
    bits a hi lo = bits b hi lo := by
  apply Nat.eq_of_testBit_eq
  intro i
  rw [testBit_bits, testBit_bits]
  by_cases hc : i ≤ hi - lo
  · simp only [hc, decide_eq_true_eq, decide_True, Bool.true_and]
    exact h (lo + i) (by omega) (by omega)
  · simp [hc]

/-- Rounding `pyRound` of an integer is that integer. -/
theorem pyRound_intCast (m : ℤ) : pyRound (m : ℚ) = m := by
  simp [pyRound]

/-- Rounding `pyRound` of a natural number is that natural number. -/
theorem pyRound_natCast (n : ℕ) : (pyRound (n : ℚ)).toNat = n := by
  have h : ((n : ℤ) : ℚ) = (n : ℚ) := by push_cast; ring
  rw [← h, pyRound_intCast]
  simp

/-- When `pl2_w` is absent, `write_pl_watts` leaves every bit in `[16, 62]`
(in particular the PL2 field `[46:32]`, its enable bit 47 and the time
windows) unchanged. -/
theorem write_pl_frame_hi (raw : ℕ) (p1 : Option ℚ) (u : ℚ) (i : ℕ)
    (h1 : 16 ≤ i) (h2 : i ≤ 62) :
    (write_pl_value raw p1 none u).testBit i = raw.testBit i := by
  cases p1 with
  | none =>
      simp only [write_pl_value]
      rw [testBit_set_bits _ 63 63 0 i le_rfl]
      simp [show ¬ (63 ≤ i ∧ i ≤ 63) from by omega]
  | some w =>
      simp only [write_pl_value]
      rw [testBit_set_bits _ 63 63 0 i le_rfl,
        testBit_set_bits _ 15 15 1 i le_rfl,
        testBit_set_bits _ 14 0 _ i (by omega)]
      simp [show ¬ (63 ≤ i ∧ i ≤ 63) from by omega,
        show ¬ (15 ≤ i ∧ i ≤ 15) from by omega,
        show ¬ i ≤ 14 from by omega]

/-- When `pl1_w` is absent, `write_pl_watts` leaves every bit in `[0, 31]`
(in particular the PL1 field `[14:0]` and its enable bit 15) unchanged. -/
theorem write_pl_frame_lo (raw : ℕ) (p2 : Option ℚ) (u : ℚ) (i : ℕ)
    (h2 : i ≤ 31) :
    (write_pl_value raw none p2 u).testBit i = raw.testBit i := by
  cases p2 with
  | none =>
      simp only [write_pl_value]
      rw [testBit_set_bits _ 63 63 0 i le_rfl]
      simp [show ¬ (63 ≤ i ∧ i ≤ 63) from by omega]
  | some w =>
      simp only [write_pl_value]
      rw [testBit_set_bits _ 63 63 0 i le_rfl,
        testBit_set_bits _ 47 47 1 i le_rfl,
        testBit_set_bits _ 46 32 _ i (by omega)]
      simp [show ¬ (63 ≤ i ∧ i ≤ 63) from by omega,
        show ¬ (47 ≤ i ∧ i ≤ 47) from by omega,
        show ¬ (32 ≤ i ∧ i ≤ 46) from by omega]

/-! ### Claims -/

/-- C1: for every pre-read 64-bit register value and every combination of
optional pl1/pl2 wattage arguments, the value `write_pl_watts` broadcasts has
bit 63 (the lock bit) equal to 0 — even when the value it read had bit 63
set. -/
theorem c1_lock_bit_never_set (raw : ℕ) (pl1_w pl2_w : Option ℚ) (power_unit : ℚ) :
    (write_pl_value raw pl1_w pl2_w power_unit).testBit 63 = false := by
  simp only [write_pl_value]
  rw [testBit_set_bits _ 63 63 0 63 le_rfl]
  simp

/-- C5: `bits` after `set_bits` over the same bit range returns the inserted
field truncated to the field width, for all `0 ≤ lo ≤ hi ≤ 63` and any base
value. -/
theorem c5_insert_extract (v hi lo f : ℕ) (hlo : lo ≤ hi) (hhi : hi ≤ 63) :
    bits (set_bits v hi lo f) hi lo = f &&& ((1 <<< (hi - lo + 1)) - 1) := by
  apply Nat.eq_of_testBit_eq
  intro i
  rw [testBit_bits]
  simp only [Nat.testBit_and, Nat.one_shiftLeft, Nat.testBit_two_pow_sub_one]
  rw [testBit_set_bits _ _ _ _ _ hlo]
  by_cases hc : i ≤ hi - lo
  · have h1 : lo ≤ lo + i ∧ lo + i ≤ hi := by omega
    have h2 : lo + i - lo = i := by omega
    have h3 : i < hi - lo + 1 := by omega
    simp [hc, h1, h2, h3]
  · have h3 : ¬ (i < hi - lo + 1) := by omega
    simp [hc, h3]

/-- C5 witness: insert-then-extract at the PL2 field range on an all-ones base
value, with a field wider than the range. -/
theorem c5_insert_extract_witness :
    bits (set_bits 0xFFFFFFFFFFFFFFFF 46 32 0x1ABCD) 46 32 =
      0x1ABCD &&& ((1 <<< (46 - 32 + 1)) - 1) :=
  c5_insert_extract 0xFFFFFFFFFFFFFFFF 46 32 0x1ABCD (by decide) (by decide)

/-- C3: `write_pl_watts(pl1_w=45.0, pl2_w=None, power_unit=0.125)` leaves the
PL2 field `[46:32]` and enable bit 47 bit-identical to the pre-write value,
sets the PL1 field `[14:0]` to `round(45.0 / 0.125) = 360` and forces the PL1
enable bit 15 on; in general an absent wattage argument leaves that limit's
field and enable bit untouched. -/
theorem c3_write_pl_frame (raw : ℕ) :
    bits (write_pl_value raw (some 45) none (1/8)) 46 32 = bits raw 46 32
    ∧ (write_pl_value raw (some 45) none (1/8)).testBit 47 = raw.testBit 47
    ∧ bits (write_pl_value raw (some 45) none (1/8)) 14 0 = 360
    ∧ (write_pl_value raw (some 45) none (1/8)).testBit 15 = true
    ∧ (∀ (p2 : Option ℚ) (u : ℚ),
        bits (write_pl_value raw none p2 u) 14 0 = bits raw 14 0
        ∧ (write_pl_value raw none p2 u).testBit 15 = raw.testBit 15)
    ∧ (∀ (p1 : Option ℚ) (u : ℚ),
        bits (write_pl_value raw p1 none u) 46 32 = bits raw 46 32
        ∧ (write_pl_value raw p1 none u).testBit 47 = raw.testBit 47) := by
  have h360 : (pyRound ((45 : ℚ) / (1/8))).toNat = 360 := by
    have h : (45 : ℚ) / (1/8) = ((360 : ℕ) : ℚ) := by norm_num
    rw [h, pyRound_natCast]
  refine ⟨?_, ?_, ?_, ?_, ?_, ?_⟩
  · exact bits_congr _ _ 46 32 (by omega)
      (fun i hi1 hi2 => write_pl_frame_hi raw (some 45) (1/8) i (by omega) (by omega))
  · exact write_pl_frame_hi raw (some 45) (1/8) 47 (by omega) (by omega)
  · apply Nat.eq_of_testBit_eq
    intro i
    rw [testBit_bits]
    simp only [write_pl_value, h360]
    rw [testBit_set_bits _ 63 63 0 (0 + i) le_rfl,
      testBit_set_bits _ 15 15 1 (0 + i) le_rfl,
      testBit_set_bits _ 14 0 360 (0 + i) (by omega)]
    by_cases hc : i ≤ 14
    · simp [show ¬ (63 ≤ i) from by omega,
        show ¬ (15 ≤ i ∧ i ≤ 15) from by omega, hc]
    · have h15 : (360 : ℕ) < 2 ^ i := by
        calc (360 : ℕ) < 2 ^ 15 := by norm_num
        _ ≤ 2 ^ i := Nat.pow_le_pow_right (by norm_num) (by omega)
      simp [hc, Nat.testBit_lt_two_pow h15]
  · simp only [write_pl_value, h360]
    rw [testBit_set_bits _ 63 63 0 15 le_rfl,
      testBit_set_bits _ 15 15 1 15 le_rfl]
    simp
  · intro p2 u
    constructor
    · exact bits_congr _ _ 14 0 (by omega)
        (fun i hi1 hi2 => write_pl_frame_lo raw p2 u i (by omega))
    · exact write_pl_frame_lo raw p2 u 15 (by omega)
  · intro p1 u
    constructor
    · exact bits_congr _ _ 46 32 (by omega)
        (fun i hi1 hi2 => write_pl_frame_hi raw p1 u i (by omega) (by omega))
    · exact write_pl_frame_hi raw p1 u 47 (by omega) (by omega)

/-- C2 counterexample: for `r = 0` (both enable bits clear) and units 1,
decode-then-re-encode forces the PL1 enable bit (15) on, so the written value
differs from `r` at a bit other than 63 — the round-trip is not bit-identical
except for the lock bit. -/
theorem c2_roundtrip_counterexample :
    (write_pl_value 0 (some ((read_power_limits 0 1 1).pl1_w))
        (some ((read_power_limits 0 1 1).pl2_w)) 1).testBit 15 = true
    ∧ (0 : ℕ).testBit 15 = false := by
  constructor
  · have h0 : (read_power_limits 0 1 1).pl1_w = 0 := by
      simp [read_power_limits, bits]
    have h0' : (read_power_limits 0 1 1).pl2_w = 0 := by
      simp [read_power_limits, bits]
    have hf : (pyRound ((0 : ℚ) / 1)).toNat = 0 := by
      have h1 : (0 : ℚ) / 1 = ((0 : ℕ) : ℚ) := by norm_num
      rw [h1, pyRound_natCast]
    simp only [write_pl_value, h0, h0', hf]
    rw [testBit_set_bits _ 63 63 0 15 le_rfl,
      testBit_set_bits _ 47 47 1 15 le_rfl,
      testBit_set_bits _ 46 32 _ 15 (by omega),
      testBit_set_bits _ 15 15 1 15 le_rfl]
    simp
  · simp

/-- C2 (amended): decoding then re-encoding a power-limit register value with
unchanged wattages and units reproduces the original value bit for bit,
except that bit 63 (lock) is always forced to 0 and the PL1/PL2 enable bits
(15 and 47) are always forced to 1.  (The original claim, identity outside
bit 63 alone, fails when an enable bit was 0 on read.) -/
theorem c2_roundtrip_amended (raw : ℕ) (u t : ℚ) (hu : u ≠ 0) (i : ℕ) :
    (write_pl_value raw (some ((read_power_limits raw u t).pl1_w))
        (some ((read_power_limits raw u t).pl2_w)) u).testBit i
      = if i = 63 then false
        else if i = 15 ∨ i = 47 then true
        else raw.testBit i := by
  have hf1 : (pyRound ((bits raw 14 0 : ℚ) * u / u)).toNat = bits raw 14 0 := by
    rw [mul_div_cancel_right₀ _ hu, pyRound_natCast]
  have hf2 : (pyRound ((bits raw 46 32 : ℚ) * u / u)).toNat = bits raw 46 32 := by
    rw [mul_div_cancel_right₀ _ hu, pyRound_natCast]
  simp only [write_pl_value, read_power_limits, hf1, hf2]
  rw [testBit_set_bits _ 63 63 0 i le_rfl,
    testBit_set_bits _ 47 47 1 i le_rfl,
    testBit_set_bits _ 46 32 _ i (by omega),
    testBit_set_bits _ 15 15 1 i le_rfl,
    testBit_set_bits _ 14 0 _ i (by omega)]
  simp only [testBit_bits]
  by_cases h1 : i = 63
  · subst h1; simp
  by_cases h2 : i = 47
  · subst h2; simp
  by_cases h3 : 32 ≤ i ∧ i ≤ 46
  · have e : 32 + (i - 32) = i := by omega
    simp [show ¬ (63 ≤ i ∧ i ≤ 63) from by omega,
      show ¬ (47 ≤ i ∧ i ≤ 47) from by omega, h3,
      show i - 32 ≤ 14 from by omega, e, h1,
      show ¬ (i = 15 ∨ i = 47) from by omega]
  by_cases h4 : i = 15
  · subst h4; simp
  by_cases h5 : i ≤ 14
  · simp [show ¬ (63 ≤ i ∧ i ≤ 63) from by omega,
      show ¬ (47 ≤ i ∧ i ≤ 47) from by omega, h3,
      show ¬ (15 ≤ i ∧ i ≤ 15) from by omega,
      show i ≤ 14 from h5, h1,
      show ¬ (i = 15 ∨ i = 47) from by omega]
  · simp [show ¬ (63 ≤ i ∧ i ≤ 63) from by omega,
      show ¬ (47 ≤ i ∧ i ≤ 47) from by omega, h3,
      show ¬ (15 ≤ i ∧ i ≤ 15) from by omega,
      show ¬ i ≤ 14 from h5, h1,
      show ¬ (i = 15 ∨ i = 47) from by omega]

/-- C2 witness: at `r = 2^63` (lock bit set on read) with units 1,
the re-encoded value has bit 63 equal to 0. -/
theorem c2_roundtrip_amended_witness :
    (write_pl_value (2 ^ 63) (some ((read_power_limits (2 ^ 63) 1 1).pl1_w))
        (some ((read_power_limits (2 ^ 63) 1 1).pl2_w)) 1).testBit 63 = false := by
  have h := c2_roundtrip_amended (2 ^ 63) 1 1 one_ne_zero 63
  simpa using h

/-- C4: for every 7-bit time-window field with exponent `Y = bits 0..4` and
fraction selector `Z = bits 5..6` and every time unit, the decoded window is
`2^Y * (1 + Z/4) * timeUnit`; `decode(Y=0, Z=0, timeUnit=1) = 1`; and for a
fixed fraction selector the decoded value is monotonically increasing in the
exponent (time units are positive, being `2^-k` for a register field `k`). -/
theorem c4_time_window (field : ℕ) (hf : field < 128) (u : ℚ) :
    _decode_time_window field u
      = 2 ^ (field % 32) * (1 + ((field / 32 : ℕ) : ℚ) / 4) * u
    ∧ _decode_time_window 0 1 = 1
    ∧ (∀ y y' z : ℕ, y < y' → y' < 32 → z < 4 → 0 < u →
        _decode_time_window (z * 32 + y) u < _decode_time_window (z * 32 + y') u) := by
  have hand : ∀ f : ℕ, f < 128 → f &&& 0x1F = f % 32 := by decide
  have hshift : ∀ f : ℕ, f < 128 → (f >>> 5) &&& 0x3 = f / 32 := by decide
  refine ⟨?_, ?_, ?_⟩
  · simp only [_decode_time_window, hand field hf, hshift field hf]
  · simp [_decode_time_window]
  · intro y y' z hy hy' hz hu
    have h1 : z * 32 + y < 128 := by omega
    have h2 : z * 32 + y' < 128 := by omega
    have e1 : (z * 32 + y) % 32 = y := by omega
    have e2 : (z * 32 + y) / 32 = z := by omega
    have e3 : (z * 32 + y') % 32 = y' := by omega
    have e4 : (z * 32 + y') / 32 = z := by omega
    simp only [_decode_time_window, hand _ h1, hand _ h2, hshift _ h1, hshift _ h2,
      e1, e2, e3, e4]
    have hzpos : (0 : ℚ) < 1 + (z : ℚ) / 4 := by positivity
    have hpow : (2 : ℚ) ^ y < 2 ^ y' := by
      apply pow_lt_pow_right₀ (by norm_num) hy
    exact mul_lt_mul_of_pos_right (mul_lt_mul_of_pos_right hpow hzpos) hu

/-- C4 witness: the decode at `Y=0, Z=0, timeUnit=1` is 1, and decode is
strictly increasing from exponent 0 to 1 at fraction selector 0. -/
theorem c4_time_window_witness :
    _decode_time_window 0 1 = 1
    ∧ _decode_time_window (0 * 32 + 0) 1 < _decode_time_window (0 * 32 + 1) 1 :=
  ⟨(c4_time_window 0 (by decide) 1).2.1,
   (c4_time_window 0 (by decide) 1).2.2 0 1 0 (by decide) (by decide) (by decide)
     (by norm_num)⟩

/-- Collecting all-present entries succeeds iff every entry is in 20..42, and
then returns exactly the entries. -/
theorem validate_ratios_map_some (rs : List ℕ) :
    validate_ratios (rs.map some)
      = if rs.all (fun r => 20 ≤ r && r ≤ 42) then some rs else none := by
  induction rs with
  | nil => simp [validate_ratios]
  | cons a t ih =>
      simp only [List.map_cons, validate_ratios, ih, List.all_cons]
      by_cases ha : a < 20 ∨ 42 < a
      · have : ¬ (20 ≤ a && a ≤ 42) = true := by
          simp only [Bool.and_eq_true, decide_eq_true_eq]
          omega
        simp [ha, this]
      · have : (20 ≤ a && a ≤ 42) = true := by
          simp only [Bool.and_eq_true, decide_eq_true_eq]
          omega
        by_cases ht : t.all (fun r => 20 ≤ r && r ≤ 42)
        · simp [ha, this, ht]
        · simp [ha, this, ht]

/-- An adjacent order violation falsifies the ordering check. -/
theorem order_ok_eq_false (rs : List ℕ) (i : ℕ)
    (h1 : i + 1 < rs.length) (h2 : rs.getD i 0 < rs.getD (i + 1) 0) :
    order_ok rs = false := by
  induction rs generalizing i with
  | nil => simp at h1
  | cons a t ih =>
      cases t with
      | nil => simp at h1
      | cons b t2 =>
          cases i with
          | zero =>
              simp only [List.getD_cons_zero, List.getD_cons_succ] at h2
              simp [order_ok, h2]
          | succ j =>
              have hrec : order_ok (b :: t2) = false := by
                apply ih j
                · simpa using h1
                · simpa using h2
              simp only [order_ok, hrec]
              split <;> rfl

/-- C6: `_apply_ratios` validates before any hardware access — if some entry
is outside 20..42 or some adjacent pair increases, the result is `none` for
every possible current hardware table (nothing is read or written); in
particular `[30, 32, 28, 26]` is rejected while `[36, 35, 34, 33]` is
accepted and written, replacing the first 4 entries of the current table. -/
theorem c6_apply_ratios :
    (∀ (rs current : List ℕ),
        ((∃ r ∈ rs, r < 20 ∨ 42 < r)
          ∨ (∃ i, i + 1 < rs.length ∧ rs.getD i 0 < rs.getD (i + 1) 0)) →
        apply_ratios (rs.map some) current = none)
    ∧ (∀ current : List ℕ, apply_ratios ([30, 32, 28, 26].map some) current = none)
    ∧ (∀ current : List ℕ, apply_ratios ([36, 35, 34, 33].map some) current
        = some ([36, 35, 34, 33] ++ current.drop 4)) := by
  refine ⟨?_, ?_, ?_⟩
  · intro rs current hbad
    rw [apply_ratios, validate_ratios_map_some]
    rcases hbad with ⟨r, hr, hout⟩ | ⟨i, hi, hlt⟩
    · have : ¬ rs.all (fun r => 20 ≤ r && r ≤ 42) = true := by
        simp only [List.all_eq_true, Bool.and_eq_true, decide_eq_true_eq]
        intro hall
        have := hall r hr
        omega
      simp [this]
    · by_cases hall : rs.all (fun r => 20 ≤ r && r ≤ 42) = true
      · simp [hall, order_ok_eq_false rs i hi hlt]
      · simp [hall]
  · intro current; rfl
  · intro current; rfl

/-- C6 witness: a concrete out-of-range rejection, and the concrete accepted
write of `[36, 35, 34, 33]` merged over an 8-entry table. -/
theorem c6_apply_ratios_witness :
    apply_ratios ([30, 32, 28, 26].map some) [40, 40, 40, 40, 41, 41, 41, 41] = none
    ∧ apply_ratios ([36, 35, 34, 33].map some) [40, 40, 40, 40, 41, 41, 41, 41]
        = some ([36, 35, 34, 33] ++ [40, 40, 40, 40, 41, 41, 41, 41].drop 4) :=
  ⟨c6_apply_ratios.1 [30, 32, 28, 26] [40, 40, 40, 40, 41, 41, 41, 41]
      (Or.inr ⟨0, by decide, by decide⟩),
   c6_apply_ratios.2.2 [40, 40, 40, 40, 41, 41, 41, 41]⟩

/-- C7: on shutdown with the fan interface available, cleanup issues
`level auto` then `watchdog 0` in that order; the close event is accepted for
every write-failure pattern (exceptions are swallowed, shutdown completes);
on failure the issued commands are still an in-order prefix starting with
`level auto`; and the cleanup is identical for every fan mode active at
shutdown (the source never inspects the mode). -/
theorem c7_shutdown_cleanup (m : FanMode) (dev : ℕ → Bool) :
    (closeEvent true m dev).2 = true
    ∧ ((∀ n, dev n = true) →
        (closeEvent true m dev).1 = [write_fan_level_cmd ("auto"), write_fan_watchdog_cmd 0])
    ∧ ((closeEvent true m dev).1 = [write_fan_level_cmd ("auto"), write_fan_watchdog_cmd 0]
        ∨ (closeEvent true m dev).1 = [write_fan_level_cmd ("auto")])
    ∧ (∀ m' : FanMode, closeEvent true m dev = closeEvent true m' dev) := by
  refine ⟨rfl, ?_, ?_, fun m' => rfl⟩
  · intro hdev
    simp [closeEvent, runWrites, hdev 0, hdev 1]
  · by_cases h0 : dev 0
    · by_cases h1 : dev 1
      · left; simp [closeEvent, runWrites, h0, h1]
      · left; simp [closeEvent, runWrites, h0, h1]
    · right; simp [closeEvent, runWrites, h0]

/-- C7 witness: with every write succeeding and `disengaged` active at
shutdown, cleanup issues exactly `level auto` then `watchdog 0`. -/
theorem c7_shutdown_cleanup_witness :
    (closeEvent true FanMode.disengaged (fun _ => true)).1
      = [write_fan_level_cmd ("auto"), write_fan_watchdog_cmd 0] :=
  (c7_shutdown_cleanup FanMode.disengaged (fun _ => true)).2.1 (fun _ => rfl)

/-- C8: applying any fan setting writes `level <value>` first, then for every
non-auto mode (manual level 0..7 including 0, full-speed, disengaged) arms
the watchdog with the fixed non-zero timeout `FAN_WATCHDOG_SECONDS = 30`,
while mode auto disarms it with `watchdog 0`. -/
theorem c8_fan_watchdog (m : FanMode) (h : fan_mode_ok m = true) :
    _apply_fan_setting m
      = [write_fan_level_cmd (fan_level_str m),
         if m = FanMode.auto then write_fan_watchdog_cmd 0
         else write_fan_watchdog_cmd FAN_WATCHDOG_SECONDS]
    ∧ FAN_WATCHDOG_SECONDS ≠ 0 := by
  refine ⟨?_, by decide⟩
  cases m with
  | auto => rfl
  | manual n =>
      have hn : n ≤ 7 := by simpa [fan_mode_ok] using h
      interval_cases n <;> rfl
  | fullSpeed => rfl
  | disengaged => rfl

/-- C8 witness: manual level 0 still arms the watchdog with the fixed
non-zero timeout. -/
theorem c8_fan_watchdog_witness :
    _apply_fan_setting (FanMode.manual 0)
      = [write_fan_level_cmd (fan_level_str (FanMode.manual 0)),
         if FanMode.manual 0 = FanMode.auto then write_fan_watchdog_cmd 0
         else write_fan_watchdog_cmd FAN_WATCHDOG_SECONDS]
    ∧ FAN_WATCHDOG_SECONDS ≠ 0 :=
  c8_fan_watchdog (FanMode.manual 0) (by decide)

/-- C9 counterexample: on an absent enumeration directory, `online_cpus`
propagates the `OSError` from `os.listdir` (there is no handler in the
source), rather than returning the empty sequence. -/
theorem c9_absent_raises_counterexample :
    online_cpus none = Except.error () ∧ online_cpus none ≠ Except.ok [] := by
  constructor
  · rfl
  · simp [online_cpus]

/-- C9 (amended): `online_cpus` returns exactly the purely-numeric entry
names parsed as integers, sorted ascending; an empty directory yields the
empty sequence; an absent directory makes the call fail (the `OSError` from
`os.listdir` propagates) rather than yielding the empty sequence. -/
theorem c9_online_cpus_amended (es : List String) :
    (∃ l, online_cpus (some es) = Except.ok l
        ∧ l.Sorted (· ≤ ·)
        ∧ List.Perm l (es.filterMap (fun e => if isdigit e then e.toNat? else none)))
    ∧ online_cpus (some []) = Except.ok []
    ∧ online_cpus none = Except.error () := by
  refine ⟨⟨_, rfl, ?_, ?_⟩, by simp [online_cpus], rfl⟩
  · have h : List.Pairwise (fun a b : ℕ => (decide (a ≤ b)) = true)
        ((es.filterMap (fun e => if isdigit e then e.toNat? else none)).mergeSort
          (fun a b => decide (a ≤ b))) :=
      List.sorted_mergeSort
        (fun a b c hab hbc => by
          simp only [decide_eq_true_eq] at hab hbc ⊢
          omega)
        (fun a b => by simp [Nat.le_total]) _
    simpa using h
  · exact List.mergeSort_perm _ _

/-- Writing one value to every CPU in a list leaves CPUs outside the list
unchanged. -/
theorem write_msr_all_cpus_not_mem (cpus : List ℕ) (v : ℕ) (st : ℕ → ℕ) (c : ℕ)
    (h : c ∉ cpus) : write_msr_all_cpus cpus v st c = st c := by
  induction cpus generalizing st with
  | nil => rfl
  | cons a t ih =>
      have hc : c ≠ a := fun he => h (he ▸ List.mem_cons_self a t)
      have ht : c ∉ t := fun he => h (List.mem_cons_of_mem a he)
      simp only [write_msr_all_cpus]
      rw [ih _ ht]
      simp [write_msr_single, hc]

/-- Writing one value to every CPU in a list leaves each listed CPU holding
that value. -/
theorem write_msr_all_cpus_mem (cpus : List ℕ) (v : ℕ) (st : ℕ → ℕ) (c : ℕ)
    (h : c ∈ cpus) : write_msr_all_cpus cpus v st c = v := by
  induction cpus generalizing st with
  | nil => simp at h
  | cons a t ih =>
      simp only [write_msr_all_cpus]
      by_cases hc : c ∈ t
      · exact ih _ hc
      · have hca : c = a := by
          rcases List.mem_cons.mp h with h' | h'
          · exact h'
          · exact absurd h' hc
        rw [write_msr_all_cpus_not_mem t v _ c hc]
        simp [write_msr_single, hca]

/-- C10: `write_pl_watts` derives the broadcast value from a single read of
CPU 0 only — two runs over states agreeing at CPU 0 write the same value to
every targeted CPU, each online CPU ends up holding exactly
`write_pl_value (st 0) …`, and afterwards all online CPUs hold bit-identical
register values. -/
theorem c10_single_read_broadcast :
    (∀ (s1 s2 : ℕ → ℕ) (cpus : List ℕ) (p1 p2 : Option ℚ) (u : ℚ) (c : ℕ),
        s1 0 = s2 0 → c ∈ cpus →
        write_pl_watts s1 cpus p1 p2 u c = write_pl_watts s2 cpus p1 p2 u c)
    ∧ (∀ (st : ℕ → ℕ) (cpus : List ℕ) (p1 p2 : Option ℚ) (u : ℚ) (c : ℕ),
        c ∈ cpus →
        write_pl_watts st cpus p1 p2 u c = write_pl_value (st 0) p1 p2 u)
    ∧ (∀ (st : ℕ → ℕ) (cpus : List ℕ) (p1 p2 : Option ℚ) (u : ℚ) (c c' : ℕ),
        c ∈ cpus → c' ∈ cpus →
        write_pl_watts st cpus p1 p2 u c = write_pl_watts st cpus p1 p2 u c') := by
  have key : ∀ (st : ℕ → ℕ) (cpus : List ℕ) (p1 p2 : Option ℚ) (u : ℚ) (c : ℕ),
      c ∈ cpus → write_pl_watts st cpus p1 p2 u c = write_pl_value (st 0) p1 p2 u :=
    fun st cpus p1 p2 u c hc => write_msr_all_cpus_mem cpus _ st c hc
  refine ⟨?_, key, ?_⟩
  · intro s1 s2 cpus p1 p2 u c h0 hc
    rw [key s1 cpus p1 p2 u c hc, key s2 cpus p1 p2 u c hc, h0]
  · intro st cpus p1 p2 u c c' hc hc'
    rw [key st cpus p1 p2 u c hc, key st cpus p1 p2 u c' hc']

/-- C10 witness: broadcasting over CPUs `[0, 1]` from the all-zero state
leaves CPU 1 holding exactly the value computed from CPU 0's register. -/
theorem c10_single_read_broadcast_witness :
    write_pl_watts (fun _ => 0) [0, 1] none none 1 1 = write_pl_value 0 none none 1 :=
  c10_single_read_broadcast.2.1 (fun _ => 0) [0, 1] none none 1 1 (by decide)

end Overclock
